import Mathlib

/-!
# Inline-Assembly: the three extended-asm examples

A shallow embedding of `src/solutions/add.c`, `src/solutions/clobber.c` and
`src/solutions/numbered.c`.

Each program is one `asm volatile` statement between the initialisation of a
few `int` locals and one `printf`.  The embedding has three layers:

* the 32-bit general-purpose register file and the two instructions the
  templates use (`movl`, `addl`, AT&T operand order: source first);
* the extended-asm statement: operand lists with their constraints, the
  clobber list, the register assignment the compiler picks, the loading of the
  read operands before the template and the write-back of the output operands
  after it;
* the three `main` functions: locals, the asm statement, `printf`, `return 0`.

The register assignment and the register contents on entry are not fixed by the
source; they are parameters of every run.
-/

namespace InlineAsm

/-! ## Machine words -/

/-- Reduce a natural number to a 32-bit word. -/
def wrap32 (n : Nat) : Nat := n % 4294967296

/-- Two's-complement reading of a 32-bit word, the value of a C `int`. -/
def toInt32 (w : Nat) : Int :=
  if wrap32 w < 2147483648 then (wrap32 w : Int) else (wrap32 w : Int) - 4294967296

/-- The 32-bit word that holds a C `int`. -/
def ofInt32 (i : Int) : Nat := (i % 4294967296).toNat

/-- Signed 32-bit wrap-around of an integer: `i mod 2^32` read as an `int`. -/
def wrapInt (i : Int) : Int := toInt32 (ofInt32 i)

/-- Range of a C `int` on the target. -/
def isInt32 (i : Int) : Prop := -2147483648 ≤ i ∧ i < 2147483648

instance (i : Int) : Decidable (isInt32 i) := by
  unfold isInt32; exact inferInstance

/-! ## Registers -/

/-- The 32-bit general-purpose registers of x86 / x86-64. -/
inductive Reg
  | eax | ebx | ecx | edx | esi | edi | ebp | esp
  | r8d | r9d | r10d | r11d | r12d | r13d | r14d | r15d
  deriving DecidableEq, Repr

/-- Contents of the general-purpose registers. -/
abbrev RegFile := Reg → Nat

/-- Write one register. -/
def RegFile.set (s : RegFile) (r : Reg) (v : Nat) : RegFile :=
  fun q => if q = r then v else s q

/-- The stack pointer is a fixed register: the constraint `r` never selects it. -/
def allocatable (r : Reg) : Bool := r != Reg.esp

/-! ## Assembler templates -/

/-- Symbolic operand names used by the sources (`%[name]`). -/
inductive Sym
  | output_res | output_a | output_b | val
  deriving DecidableEq, Repr

/-- An operand as written in a template. -/
inductive Arg
  | imm (n : Int)      -- `$100`
  | hard (r : Reg)     -- `%%eax`
  | num (i : Nat)      -- `%0`
  | named (n : Sym)    -- `%[val]`
  deriving DecidableEq, Repr

/-- The instructions of the three templates, source operand first. -/
inductive Instr
  | movl (src dst : Arg)
  | addl (src dst : Arg)
  deriving DecidableEq, Repr

/-- C locals of the three programs. -/
inductive Var
  | a | b | result | x | y | sum
  deriving DecidableEq, Repr

/-- Operand constraints that occur in the sources. -/
inductive Constraint
  | outR     -- `"=r"`
  | inoutR   -- `"+r"`
  | inR      -- `"r"`
  deriving DecidableEq, Repr

/-- One entry of an operand list: `[name] "constraint" (var)`. -/
structure Operand where
  name : Option Sym
  constraint : Constraint
  var : Var
  deriving DecidableEq, Repr

/-- An extended-asm statement. -/
structure AsmStmt where
  template : List Instr
  outputs : List Operand
  inputs : List Operand
  clobbers : List Reg

/-- Operands in numbering order: outputs first, then inputs. -/
def AsmStmt.operands (st : AsmStmt) : List Operand := st.outputs ++ st.inputs

/-- The operand is read by the template (its register is loaded on entry). -/
def Operand.isRead (o : Operand) : Bool :=
  match o.constraint with
  | Constraint.outR => false
  | Constraint.inoutR => true
  | Constraint.inR => true

/-- A template operand after substitution. -/
inductive Loc
  | imm (n : Int)
  | reg (r : Reg)
  deriving DecidableEq, Repr

/-- Position of the operand carrying a symbolic name. -/
def findSym (n : Sym) : List Operand → Option Nat
  | [] => none
  | o :: os => if o.name = some n then some 0 else (findSym n os).map Nat.succ

/-- Substitute an operand of the template under a register assignment. -/
def resolve (st : AsmStmt) (asg : List Reg) : Arg → Option Loc
  | Arg.imm n => some (Loc.imm n)
  | Arg.hard r => some (Loc.reg r)
  | Arg.num i => if i < st.operands.length then (asg.get? i).map Loc.reg else none
  | Arg.named n => (findSym n st.operands).bind fun i => (asg.get? i).map Loc.reg

/-- Value of a source operand. -/
def Loc.read (s : RegFile) : Loc → Nat
  | Loc.imm n => ofInt32 n
  | Loc.reg r => wrap32 (s r)

/-- Execute one instruction; an immediate destination does not assemble. -/
def execInstr (st : AsmStmt) (asg : List Reg) (s : RegFile) : Instr → Option RegFile
  | Instr.movl src dst =>
    match resolve st asg src, resolve st asg dst with
    | some a, some (Loc.reg d) => some (s.set d (a.read s))
    | _, _ => none
  | Instr.addl src dst =>
    match resolve st asg src, resolve st asg dst with
    | some a, some (Loc.reg d) => some (s.set d (wrap32 (wrap32 (s d) + a.read s)))
    | _, _ => none

/-- Execute a template, instruction by instruction. -/
def runTemplate (st : AsmStmt) (asg : List Reg) : List Instr → RegFile → Option RegFile
  | [], s => some s
  | i :: is, s => (execInstr st asg s i).bind (runTemplate st asg is)

/-- Register written by an instruction (its destination), when it assembles. -/
def Instr.writes (st : AsmStmt) (asg : List Reg) : Instr → List Reg
  | Instr.movl _ dst | Instr.addl _ dst =>
    match resolve st asg dst with
    | some (Loc.reg d) => [d]
    | _ => []

/-- Registers written by a template. -/
def writtenRegs (st : AsmStmt) (asg : List Reg) : List Reg :=
  st.template.flatMap (Instr.writes st asg)

/-! ## The extended-asm statement -/

/-- Values of the C locals; `none` is an uninitialised local. -/
abbrev Store := Var → Option Int

/-- Assign a local. -/
def Store.set (m : Store) (v : Var) (i : Int) : Store :=
  fun w => if w = v then some i else m w

/-- No local initialised. -/
def Store.empty : Store := fun _ => none

/-- Two read operands may share a register only when they hold the same value. -/
def sharedReadsAgree (m : Store) (ops : List (Operand × Reg)) : Bool :=
  ops.all fun p => ops.all fun q =>
    !(p.1.isRead && q.1.isRead && decide (p.2 = q.2)) || decide (m p.1.var = m q.1.var)

/-- Register assignments the constraints permit: one allocatable register per
operand, none of them clobbered, the outputs in pairwise distinct registers,
read operands sharing a register only when they hold the same value.  No
output of the sources is early-clobber (`&`), so an output may share the
register of an input. -/
def permitted (st : AsmStmt) (m : Store) (asg : List Reg) : Bool :=
  decide (asg.length = st.operands.length)
    && asg.all (fun r => allocatable r && !(st.clobbers.contains r))
    && decide ((asg.take st.outputs.length).Nodup)
    && sharedReadsAgree m (st.operands.zip asg)

/-- Load the registers of the read operands from their locals. -/
def loadInputs (m : Store) : List (Operand × Reg) → RegFile → Option RegFile
  | [], s => some s
  | (o, r) :: rest, s =>
    if o.isRead then
      match m o.var with
      | some v => loadInputs m rest (s.set r (ofInt32 v))
      | none => none
    else loadInputs m rest s

/-- Write the registers of the output operands back to their locals. -/
def storeOutputs (s : RegFile) : List (Operand × Reg) → Store → Store
  | [], m => m
  | (o, r) :: rest, m => storeOutputs s rest (m.set o.var (toInt32 (s r)))

/-- Registers on entry to the template. -/
def asmEntry (st : AsmStmt) (asg : List Reg) (m : Store) (s0 : RegFile) : Option RegFile :=
  loadInputs m (st.operands.zip asg) s0

/-- Registers on exit from the template. -/
def asmExit (st : AsmStmt) (asg : List Reg) (m : Store) (s0 : RegFile) : Option RegFile :=
  (asmEntry st asg m s0).bind (runTemplate st asg st.template)

/-- Run the statement: load, execute, write back. -/
def runAsm (st : AsmStmt) (asg : List Reg) (m : Store) (s0 : RegFile) : Option Store :=
  (asmExit st asg m s0).map fun s => storeOutputs s (st.outputs.zip asg) m

/-! ## The three programs -/

/-- What a run of `main` leaves behind. -/
structure Outcome where
  stdout : String
  exit : Int
  deriving DecidableEq, Repr

/-- Conversion `%d` of `printf`. -/
def fmt_d (v : Int) : String := toString v

/-- Call `printf(pre "%d" post, v)` on an empty output. -/
def printf_d (pre post : String) (v : Int) : String := pre ++ fmt_d v ++ post

/-- Statement `asm volatile` of `add.c`: one `addl`, three write-only outputs,
the input list commented out. -/
def add_asm : AsmStmt where
  template := [Instr.addl (Arg.named Sym.output_b) (Arg.named Sym.output_a)]
  outputs := [⟨some Sym.output_res, Constraint.outR, Var.result⟩,
              ⟨some Sym.output_a, Constraint.outR, Var.a⟩,
              ⟨some Sym.output_b, Constraint.outR, Var.b⟩]
  inputs := []
  clobbers := []

/-- Locals of `add.c` with the literals left open: `int a = .., b = .., result;`. -/
def add_locals (a b : Int) : Store := (Store.empty.set Var.a a).set Var.b b

/-- Function `main` of `add.c` with the two literals as parameters. -/
def add_main_with (a b : Int) (asg : List Reg) (s0 : RegFile) : Option Outcome :=
  match runAsm add_asm asg (add_locals a b) s0 with
  | some m =>
    match m Var.result with
    | some v => some ⟨printf_d "Result: " "\n" v, 0⟩
    | none => none
  | none => none

/-- Function `main` of `add.c`. -/
def add_main (asg : List Reg) (s0 : RegFile) : Option Outcome := add_main_with 5 7 asg s0

/-- Statement `asm volatile` of `clobber.c`. -/
def clobber_asm : AsmStmt where
  template := [Instr.movl (Arg.imm 100) (Arg.hard Reg.eax),
               Instr.addl (Arg.hard Reg.eax) (Arg.named Sym.val)]
  outputs := [⟨some Sym.val, Constraint.inoutR, Var.a⟩]
  inputs := []
  clobbers := [Reg.eax]

/-- Locals of `clobber.c`: `int a = ..;`. -/
def clobber_locals (a : Int) : Store := Store.empty.set Var.a a

/-- Function `main` of `clobber.c` with the literal as a parameter. -/
def clobber_main_with (a : Int) (asg : List Reg) (s0 : RegFile) : Option Outcome :=
  match runAsm clobber_asm asg (clobber_locals a) s0 with
  | some m =>
    match m Var.a with
    | some v => some ⟨printf_d "Final value: " "\n" v, 0⟩
    | none => none
  | none => none

/-- Function `main` of `clobber.c`. -/
def clobber_main (asg : List Reg) (s0 : RegFile) : Option Outcome := clobber_main_with 42 asg s0

/-- Statement `asm volatile` of `numbered.c`. -/
def numbered_asm : AsmStmt where
  template := [Instr.movl (Arg.num 1) (Arg.num 0),
               Instr.addl (Arg.num 2) (Arg.num 0)]
  outputs := [⟨none, Constraint.outR, Var.sum⟩]
  inputs := [⟨none, Constraint.inR, Var.x⟩, ⟨none, Constraint.inR, Var.y⟩]
  clobbers := []

/-- Locals of `numbered.c`: `int x = .., y = .., sum;`. -/
def numbered_locals (x y : Int) : Store := (Store.empty.set Var.x x).set Var.y y

/-- Function `main` of `numbered.c` with the two literals as parameters. -/
def numbered_main_with (x y : Int) (asg : List Reg) (s0 : RegFile) : Option Outcome :=
  match runAsm numbered_asm asg (numbered_locals x y) s0 with
  | some m =>
    match m Var.sum with
    | some v => some ⟨printf_d "Sum is: " "\n" v, 0⟩
    | none => none
  | none => none

/-- Function `main` of `numbered.c`. -/
def numbered_main (asg : List Reg) (s0 : RegFile) : Option Outcome :=
  numbered_main_with 10 20 asg s0

/-! ## Decimal numerals, as the specification reads them

The output of `%d` is checked against a reader of canonical decimal numerals
that does not use the renderer of the programs. -/

/-- Value of a decimal digit character, `none` for any other character. -/
def digitValue (c : Char) : Option Nat :=
  if 48 ≤ c.toNat ∧ c.toNat ≤ 57 then some (c.toNat - 48) else none

/-- Read a run of decimal digits, most significant first, onto `acc`. -/
def readDigits : List Char → Nat → Option Nat
  | [], acc => some acc
  | c :: cs, acc =>
    match digitValue c with
    | some d => readDigits cs (10 * acc + d)
    | none => none

/-- Read a canonical unsigned numeral: at least one digit, no leading zero
except in `0` itself. -/
def readNat : List Char → Option Nat
  | [] => none
  | c :: cs => if c = '0' ∧ cs ≠ [] then none else readDigits (c :: cs) 0

/-- Read a canonical signed numeral: an unsigned numeral, or `-` followed by a
non-zero unsigned numeral. -/
def readInt : List Char → Option Int
  | [] => none
  | c :: cs =>
    if c = '-' then
      match readNat cs with
      | some (k + 1) => some (Int.negSucc k)
      | _ => none
    else (readNat (c :: cs)).map Int.ofNat

/-- The string is the canonical decimal numeral of `n`. -/
def isDecimalOf (d : String) (n : Int) : Prop := readInt d.data = some n

instance (d : String) (n : Int) : Decidable (isDecimalOf d n) := by
  unfold isDecimalOf; exact inferInstance

/-! ## Arithmetic of 32-bit words -/

theorem wrap32_ofInt32 (i : Int) : wrap32 (ofInt32 i) = ofInt32 i := by
  unfold wrap32 ofInt32; omega

theorem isInt32_toInt32 (w : Nat) : isInt32 (toInt32 w) := by
  unfold isInt32 toInt32 wrap32; split <;> omega

theorem wrapInt_of_isInt32 (i : Int) (h : isInt32 i) : wrapInt i = i := by
  unfold isInt32 at h
  unfold wrapInt toInt32 wrap32 ofInt32
  split <;> omega

/-! ## Shape of the permitted assignments -/

theorem asg_three {asg : List Reg} (h : asg.length = 3) :
    ∃ r0 r1 r2, asg = [r0, r1, r2] := by
  match asg, h with
  | [r0, r1, r2], _ => exact ⟨r0, r1, r2, rfl⟩

theorem asg_one {asg : List Reg} (h : asg.length = 1) : ∃ r, asg = [r] := by
  match asg, h with
  | [r], _ => exact ⟨r, rfl⟩

theorem permitted_length {st : AsmStmt} {m : Store} {asg : List Reg}
    (h : permitted st m asg = true) : asg.length = st.operands.length := by
  simp only [permitted, Bool.and_eq_true, decide_eq_true_eq] at h
  exact h.1.1.1

theorem numbered_permitted_iff (x y : Int) (r0 r1 r2 : Reg) :
    permitted numbered_asm (numbered_locals x y) [r0, r1, r2] = true ↔
      (r0 ≠ Reg.esp ∧ r1 ≠ Reg.esp ∧ r2 ≠ Reg.esp) ∧ (r1 = r2 → x = y) := by
  simp [permitted, numbered_asm, AsmStmt.operands, sharedReadsAgree, allocatable,
    Operand.isRead, numbered_locals, Store.set, Store.empty, and_assoc]
  intro _ _ _
  tauto

theorem clobber_permitted_iff (a : Int) (rv : Reg) :
    permitted clobber_asm (clobber_locals a) [rv] = true ↔ rv ≠ Reg.esp ∧ rv ≠ Reg.eax := by
  simp [permitted, clobber_asm, AsmStmt.operands, sharedReadsAgree, allocatable]

theorem add_permitted_iff (m : Store) (r_res r_a r_b : Reg) :
    permitted add_asm m [r_res, r_a, r_b] = true ↔
      (r_res ≠ Reg.esp ∧ r_a ≠ Reg.esp ∧ r_b ≠ Reg.esp) ∧
        (r_res ≠ r_a ∧ r_res ≠ r_b ∧ r_a ≠ r_b) := by
  simp [permitted, add_asm, AsmStmt.operands, sharedReadsAgree, allocatable,
    Operand.isRead, and_assoc]

/-! ## Symbolic execution of the three statements -/

theorem numbered_template_run (r0 r1 r2 : Reg) (s : RegFile) :
    runTemplate numbered_asm [r0, r1, r2] numbered_asm.template s =
      some ((s.set r0 (wrap32 (s r1))).set r0
        (wrap32 (wrap32 ((s.set r0 (wrap32 (s r1))) r0) +
          wrap32 ((s.set r0 (wrap32 (s r1))) r2)))) := by
  simp [runTemplate, execInstr, resolve, numbered_asm, AsmStmt.operands, Loc.read]

theorem numbered_entry (x y : Int) (r0 r1 r2 : Reg) (s0 : RegFile) :
    asmEntry numbered_asm [r0, r1, r2] (numbered_locals x y) s0 =
      some ((s0.set r1 (ofInt32 x)).set r2 (ofInt32 y)) := by
  simp [asmEntry, loadInputs, numbered_asm, AsmStmt.operands, Operand.isRead,
    numbered_locals, Store.set, Store.empty]

theorem clobber_template_run (rv : Reg) (s : RegFile) :
    runTemplate clobber_asm [rv] clobber_asm.template s =
      some ((s.set Reg.eax 100).set rv
        (wrap32 (wrap32 ((s.set Reg.eax 100) rv) + wrap32 ((s.set Reg.eax 100) Reg.eax)))) := by
  simp [runTemplate, execInstr, resolve, clobber_asm, AsmStmt.operands, Loc.read, findSym,
    ofInt32]

theorem clobber_entry (a : Int) (rv : Reg) (s0 : RegFile) :
    asmEntry clobber_asm [rv] (clobber_locals a) s0 = some (s0.set rv (ofInt32 a)) := by
  simp [asmEntry, loadInputs, clobber_asm, AsmStmt.operands, Operand.isRead,
    clobber_locals, Store.set, Store.empty]

theorem add_template_run (r_res r_a r_b : Reg) (s : RegFile) :
    runTemplate add_asm [r_res, r_a, r_b] add_asm.template s =
      some (s.set r_a (wrap32 (wrap32 (s r_a) + wrap32 (s r_b)))) := by
  simp [runTemplate, execInstr, resolve, add_asm, AsmStmt.operands, Loc.read, findSym]

theorem add_entry (m : Store) (r_res r_a r_b : Reg) (s0 : RegFile) :
    asmEntry add_asm [r_res, r_a, r_b] m s0 = some s0 := by
  simp [asmEntry, loadInputs, add_asm, AsmStmt.operands, Operand.isRead]

theorem numbered_exit_distinct (x y : Int) (r0 r1 r2 : Reg) (s0 : RegFile)
    (h02 : r0 ≠ r2) (h12 : r1 = r2 → x = y) :
    ∃ s, asmExit numbered_asm [r0, r1, r2] (numbered_locals x y) s0 = some s ∧
      toInt32 (s r0) = wrapInt (x + y) := by
  refine ⟨_, by rw [asmExit, numbered_entry, Option.some_bind, numbered_template_run], ?_⟩
  by_cases e : r1 = r2
  · subst e
    have hxy := h12 rfl
    subst hxy
    simp only [RegFile.set, h02.symm, if_true, if_false]
    unfold wrapInt toInt32 wrap32 ofInt32
    split <;> split <;> omega
  · simp only [RegFile.set, h02.symm, e, if_true, if_false]
    unfold wrapInt toInt32 wrap32 ofInt32
    split <;> split <;> omega

theorem numbered_exit_shared (x y : Int) (r r1 : Reg) (s0 : RegFile) (h : r1 ≠ r) :
    ∃ s, asmExit numbered_asm [r, r1, r] (numbered_locals x y) s0 = some s ∧
      toInt32 (s r) = wrapInt (2 * x) := by
  refine ⟨_, by rw [asmExit, numbered_entry, Option.some_bind, numbered_template_run], ?_⟩
  simp only [RegFile.set, h, if_true, if_false]
  unfold wrapInt toInt32 wrap32 ofInt32
  split <;> split <;> omega

theorem numbered_main_of_exit (x y : Int) (r0 r1 r2 : Reg) (s0 s : RegFile)
    (h : asmExit numbered_asm [r0, r1, r2] (numbered_locals x y) s0 = some s) :
    numbered_main_with x y [r0, r1, r2] s0 =
      some ⟨printf_d "Sum is: " "\n" (toInt32 (s r0)), 0⟩ := by
  rw [numbered_main_with, runAsm, h]
  simp [storeOutputs, numbered_asm, Store.set]

theorem clobber_exit (a : Int) (rv : Reg) (s0 : RegFile) (h : rv ≠ Reg.eax) :
    ∃ s, asmExit clobber_asm [rv] (clobber_locals a) s0 = some s ∧
      toInt32 (s rv) = wrapInt (a + 100) ∧ s Reg.eax = 100 := by
  refine ⟨_, by rw [asmExit, clobber_entry, Option.some_bind, clobber_template_run], ?_, ?_⟩
  · simp only [RegFile.set, h, if_true, if_false]
    unfold wrapInt toInt32 wrap32 ofInt32
    split <;> split <;> omega
  · simp [RegFile.set, h.symm]

theorem clobber_main_of_exit (a : Int) (rv : Reg) (s0 s : RegFile)
    (h : asmExit clobber_asm [rv] (clobber_locals a) s0 = some s) :
    clobber_main_with a [rv] s0 = some ⟨printf_d "Final value: " "\n" (toInt32 (s rv)), 0⟩ := by
  rw [clobber_main_with, runAsm, h]
  simp [storeOutputs, clobber_asm, Store.set]

theorem add_exit (m : Store) (r_res r_a r_b : Reg) (s0 : RegFile) :
    asmExit add_asm [r_res, r_a, r_b] m s0 =
      some (s0.set r_a (wrap32 (wrap32 (s0 r_a) + wrap32 (s0 r_b)))) := by
  rw [asmExit, add_entry, Option.some_bind, add_template_run]

theorem add_main_value (a b : Int) (r_res r_a r_b : Reg) (s0 : RegFile)
    (hra : r_res ≠ r_a) :
    add_main_with a b [r_res, r_a, r_b] s0 =
      some ⟨printf_d "Result: " "\n" (toInt32 (s0 r_res)), 0⟩ := by
  rw [add_main_with, runAsm, add_exit]
  simp [storeOutputs, add_asm, Store.set, RegFile.set, hra]

theorem set_other (s : RegFile) (r q : Reg) (v : Nat) (h : q ≠ r) : (s.set r v) q = s q := by
  simp [RegFile.set, h]

/-- The destination list of an instruction is sound: a register outside it keeps its value. -/
theorem execInstr_frame (st : AsmStmt) (asg : List Reg) (i : Instr) (s t : RegFile) (r : Reg)
    (h : execInstr st asg s i = some t) (hr : r ∉ Instr.writes st asg i) : t r = s r := by
  cases i with
  | movl src dst =>
    simp only [execInstr, Instr.writes] at h hr
    cases hs : resolve st asg src <;> cases hd : resolve st asg dst <;> simp [hs, hd] at h hr
    rename_i a d
    cases d with
    | imm n => simp at h
    | reg d =>
      simp at h hr
      rw [← h]; exact set_other _ _ _ _ hr
  | addl src dst =>
    simp only [execInstr, Instr.writes] at h hr
    cases hs : resolve st asg src <;> cases hd : resolve st asg dst <;> simp [hs, hd] at h hr
    rename_i a d
    cases d with
    | imm n => simp at h
    | reg d =>
      simp at h hr
      rw [← h]; exact set_other _ _ _ _ hr

/-- A template changes no register outside the destinations of its instructions. -/
theorem runTemplate_frame (st : AsmStmt) (asg : List Reg) (is : List Instr) (s t : RegFile)
    (r : Reg) (h : runTemplate st asg is s = some t)
    (hr : r ∉ is.flatMap (Instr.writes st asg)) : t r = s r := by
  induction is generalizing s with
  | nil => simp [runTemplate] at h; rw [← h]
  | cons i is ih =>
    simp only [runTemplate] at h
    cases hi : execInstr st asg s i with
    | none => simp [hi] at h
    | some u =>
      simp only [hi, Option.some_bind] at h
      simp only [List.flatMap_cons, List.mem_append, not_or] at hr
      rw [ih u h hr.2, execInstr_frame st asg i s u r hi hr.1]

theorem clobber_written (rv : Reg) : writtenRegs clobber_asm [rv] = [Reg.eax, rv] := by
  simp [writtenRegs, Instr.writes, resolve, clobber_asm, AsmStmt.operands, findSym]

theorem add_written (r_res r_a r_b : Reg) : writtenRegs add_asm [r_res, r_a, r_b] = [r_a] := by
  simp [writtenRegs, Instr.writes, resolve, add_asm, AsmStmt.operands, findSym]

theorem numbered_main_distinct (x y : Int) (r0 r1 r2 : Reg) (s0 : RegFile)
    (h02 : r0 ≠ r2) (h12 : r1 = r2 → x = y) :
    numbered_main_with x y [r0, r1, r2] s0 =
      some ⟨printf_d "Sum is: " "\n" (wrapInt (x + y)), 0⟩ := by
  obtain ⟨s, hs, hv⟩ := numbered_exit_distinct x y r0 r1 r2 s0 h02 h12
  rw [numbered_main_of_exit x y r0 r1 r2 s0 s hs, hv]

theorem numbered_main_shared (x y : Int) (r r1 : Reg) (s0 : RegFile) (h : r1 ≠ r) :
    numbered_main_with x y [r, r1, r] s0 =
      some ⟨printf_d "Sum is: " "\n" (wrapInt (2 * x)), 0⟩ := by
  obtain ⟨s, hs, hv⟩ := numbered_exit_shared x y r r1 s0 h
  rw [numbered_main_of_exit x y r r1 r s0 s hs, hv]

theorem clobber_main_value (a : Int) (rv : Reg) (s0 : RegFile) (h : rv ≠ Reg.eax) :
    clobber_main_with a [rv] s0 =
      some ⟨printf_d "Final value: " "\n" (wrapInt (a + 100)), 0⟩ := by
  obtain ⟨s, hs, hv, _⟩ := clobber_exit a rv s0 h
  rw [clobber_main_of_exit a rv s0 s hs, hv]

/-! ## The renderer of `%d` against the reader of numerals -/

theorem digitValue_digitChar (d : Nat) (h : d < 10) :
    digitValue (Nat.digitChar d) = some d := by
  interval_cases d <;> decide

theorem digitChar_ne_zero (d : Nat) (h : d < 10) (h0 : d ≠ 0) : Nat.digitChar d ≠ '0' := by
  interval_cases d <;> first | exact absurd rfl h0 | decide

theorem readDigits_snoc (cs : List Char) (c : Char) (acc : Nat) :
    readDigits (cs ++ [c]) acc =
      (readDigits cs acc).bind fun v => (digitValue c).map fun d => 10 * v + d := by
  induction cs generalizing acc with
  | nil => simp only [List.nil_append, readDigits]; cases digitValue c <;> rfl
  | cons a cs ih =>
    simp only [List.cons_append, readDigits]
    cases digitValue a with
    | none => rfl
    | some d => exact ih _

theorem toDigitsCore_append (f n : Nat) (ds : List Char) :
    Nat.toDigitsCore 10 f n ds = Nat.toDigitsCore 10 f n [] ++ ds := by
  induction f generalizing n ds with
  | zero => simp [Nat.toDigitsCore]
  | succ f ih =>
    simp only [Nat.toDigitsCore]
    split
    · simp
    · rw [ih (n / 10) (Nat.digitChar (n % 10) :: ds), ih (n / 10) [Nat.digitChar (n % 10)]]
      simp

/-- With enough fuel the digits of a non-zero number start with a non-zero
digit and read back as the number. -/
theorem toDigitsCore_reads (f n : Nat) (hn : n < f) (h0 : n ≠ 0) :
    ∃ c rest, Nat.toDigitsCore 10 f n [] = c :: rest ∧ c ≠ '0' ∧
      readDigits (c :: rest) 0 = some n := by
  induction f generalizing n with
  | zero => omega
  | succ f ih =>
    simp only [Nat.toDigitsCore]
    by_cases hq : n / 10 = 0
    · have hlt : n < 10 := by omega
      have hm : n % 10 = n := Nat.mod_eq_of_lt hlt
      refine ⟨Nat.digitChar n, [], by simp [hq, hm], digitChar_ne_zero n hlt h0, ?_⟩
      simp [readDigits, digitValue_digitChar n hlt]
    · obtain ⟨c, rest, hc, hne, hrd⟩ := ih (n / 10) (by omega) hq
      refine ⟨c, rest ++ [Nat.digitChar (n % 10)], ?_, hne, ?_⟩
      · rw [if_neg hq, toDigitsCore_append, hc]; rfl
      · rw [← List.cons_append, readDigits_snoc, hrd,
          digitValue_digitChar (n % 10) (Nat.mod_lt _ (by decide))]
        simp only [Option.some_bind, Option.map_some']
        congr 1
        omega

theorem readNat_toDigits (n : Nat) : readNat (Nat.toDigits 10 n) = some n := by
  by_cases h0 : n = 0
  · subst h0; decide
  · obtain ⟨c, rest, hc, hne, hrd⟩ := toDigitsCore_reads (n + 1) n (by omega) h0
    rw [Nat.toDigits, hc, readNat, if_neg (fun h => hne h.1), hrd]

theorem toDigits_head_not_minus (n : Nat) :
    ∃ c rest, Nat.toDigits 10 n = c :: rest ∧ c ≠ '-' := by
  have h := readNat_toDigits n
  cases hl : Nat.toDigits 10 n with
  | nil => rw [hl] at h; simp [readNat] at h
  | cons c rest =>
    refine ⟨c, rest, rfl, ?_⟩
    intro hc
    subst hc
    rw [hl] at h
    simp only [readNat] at h
    split at h
    · exact Option.noConfusion h
    · simp only [readDigits] at h
      exact Option.noConfusion ((show digitValue '-' = none by decide) ▸ h)

/-- The conversion `%d` writes the canonical decimal numeral of its argument. -/
theorem fmt_d_isDecimalOf (v : Int) : isDecimalOf (fmt_d v) v := by
  unfold isDecimalOf fmt_d
  cases v with
  | ofNat m =>
    obtain ⟨c, rest, hc, hne⟩ := toDigits_head_not_minus m
    have hd : (toString (Int.ofNat m)).data = Nat.toDigits 10 m := rfl
    rw [hd, hc, readInt, if_neg hne, ← hc, readNat_toDigits]
    rfl
  | negSucc m =>
    have hd : (toString (Int.negSucc m)).data = '-' :: Nat.toDigits 10 (m + 1) := rfl
    rw [hd, readInt, if_pos rfl, readNat_toDigits]

/-! ## The claims -/

/-- C1, evaluated where it fails: the constraints of `numbered.c` permit the
assignment `%0 = ecx, %1 = eax, %2 = ecx` (the output is not early-clobber), and
under it `main` writes `Sum is: 20` whatever the registers held, not
`Sum is: 30`. -/
theorem numbered_main_shared_output_prints_20 :
    permitted numbered_asm (numbered_locals 10 20) [Reg.ecx, Reg.eax, Reg.ecx] = true ∧
      (∀ s0 : RegFile,
        numbered_main [Reg.ecx, Reg.eax, Reg.ecx] s0 = some ⟨"Sum is: 20\n", 0⟩) ∧
      (∀ s0 : RegFile,
        numbered_main [Reg.ecx, Reg.eax, Reg.ecx] s0 ≠ some ⟨"Sum is: 30\n", 0⟩) := by
  have h : ∀ s0 : RegFile,
      numbered_main [Reg.ecx, Reg.eax, Reg.ecx] s0 = some ⟨"Sum is: 20\n", 0⟩ := by
    intro s0
    rw [numbered_main, numbered_main_shared 10 20 Reg.ecx Reg.eax s0 (by decide)]
    decide
  refine ⟨by decide, h, ?_⟩
  intro s0
  rw [h s0]
  decide

/-- C2: for `a = 42`, under every register assignment the constraint `+r` and
the clobber list permit and for every register content on entry, `main` of
`clobber.c` writes exactly `Final value: 142` and a newline and returns 0. -/
theorem clobber_main_prints_142 (asg : List Reg) (s0 : RegFile)
    (h : permitted clobber_asm (clobber_locals 42) asg = true) :
    clobber_main asg s0 = some ⟨"Final value: 142\n", 0⟩ := by
  obtain ⟨rv, rfl⟩ := asg_one (permitted_length h)
  have hv := ((clobber_permitted_iff 42 rv).mp h).2
  rw [clobber_main, clobber_main_value 42 rv s0 hv]
  decide

theorem clobber_main_prints_142_witness :
    permitted clobber_asm (clobber_locals 42) [Reg.edx] = true ∧
      clobber_main [Reg.edx] (fun _ => 4000000000) = some ⟨"Final value: 142\n", 0⟩ :=
  ⟨by decide, clobber_main_prints_142 [Reg.edx] (fun _ => 4000000000) (by decide)⟩

/-- C3: under every permitted assignment of the three outputs and for every
register content on entry, `main` of `add.c` does not fail and returns 0, and
its output is `Result: `, then the canonical decimal numeral of one signed
32-bit integer (digits only, a leading `-` for a negative value, no leading
zero), then a newline. -/
theorem add_main_output_shape (asg : List Reg) (s0 : RegFile)
    (h : permitted add_asm (add_locals 5 7) asg = true) :
    ∃ (n : Int) (d : String), isInt32 n ∧ isDecimalOf d n ∧
      add_main asg s0 = some ⟨"Result: " ++ d ++ "\n", 0⟩ := by
  obtain ⟨r_res, r_a, r_b, rfl⟩ := asg_three (permitted_length h)
  have hd := ((add_permitted_iff _ r_res r_a r_b).mp h).2
  exact ⟨toInt32 (s0 r_res), fmt_d (toInt32 (s0 r_res)), isInt32_toInt32 _,
    fmt_d_isDecimalOf _,
    by rw [add_main, add_main_value 5 7 r_res r_a r_b s0 hd.1]; rfl⟩

theorem add_main_output_shape_witness :
    permitted add_asm (add_locals 5 7) [Reg.eax, Reg.edx, Reg.ecx] = true ∧
      add_main [Reg.eax, Reg.edx, Reg.ecx] (fun _ => 4294967295) =
        some ⟨"Result: -1\n", 0⟩ ∧
      isDecimalOf "-1" (-1) ∧ ¬ isDecimalOf "" 0 ∧ ¬ isDecimalOf "-0" 0 ∧
      ¬ isDecimalOf "007" 7 ∧
      ∃ (n : Int) (d : String), isInt32 n ∧ isDecimalOf d n ∧
        add_main [Reg.eax, Reg.edx, Reg.ecx] (fun _ => 4294967295) =
          some ⟨"Result: " ++ d ++ "\n", 0⟩ :=
  ⟨by decide, by decide, by decide, by decide, by decide, by decide,
    add_main_output_shape [Reg.eax, Reg.edx, Reg.ecx] (fun _ => 4294967295) (by decide)⟩

/-- C4 as stated fails on `add.c`: with the outputs in `eax`, `ecx`, `edx`
(a permitted assignment), a run entered with every register 0 writes
`Result: 0` and a run entered with every register 1 writes `Result: 1`. -/
theorem add_main_runs_differ :
    permitted add_asm (add_locals 5 7) [Reg.eax, Reg.ecx, Reg.edx] = true ∧
      add_main [Reg.eax, Reg.ecx, Reg.edx] (fun _ => 0) = some ⟨"Result: 0\n", 0⟩ ∧
      add_main [Reg.eax, Reg.ecx, Reg.edx] (fun _ => 1) = some ⟨"Result: 1\n", 0⟩ ∧
      add_main [Reg.eax, Reg.ecx, Reg.edx] (fun _ => 0) ≠
        add_main [Reg.eax, Reg.ecx, Reg.edx] (fun _ => 1) := by
  have h0 : add_main [Reg.eax, Reg.ecx, Reg.edx] (fun _ => 0) = some ⟨"Result: 0\n", 0⟩ := by
    rw [add_main, add_main_value 5 7 Reg.eax Reg.ecx Reg.edx _ (by decide)]; decide
  have h1 : add_main [Reg.eax, Reg.ecx, Reg.edx] (fun _ => 1) = some ⟨"Result: 1\n", 0⟩ := by
    rw [add_main, add_main_value 5 7 Reg.eax Reg.ecx Reg.edx _ (by decide)]; decide
  refine ⟨by decide, h0, h1, ?_⟩
  rw [h0, h1]
  decide

/-- C4, amended: two runs of `clobber.c`, and two runs of `numbered.c`, under
one permitted register assignment end with the same standard output and the
same exit code whatever the registers held on entry of each run; two runs of
`add.c` under one permitted assignment both return 0, and write the same
output when the register bound to `output_res` holds the same 32-bit word on
entry of both. -/
theorem runs_deterministic_amended (ac an : List Reg) (r_res r_a r_b : Reg) (s1 s2 : RegFile)
    (hc : permitted clobber_asm (clobber_locals 42) ac = true)
    (hn : permitted numbered_asm (numbered_locals 10 20) an = true)
    (ha : permitted add_asm (add_locals 5 7) [r_res, r_a, r_b] = true) :
    (∃ o, clobber_main ac s1 = some o ∧ clobber_main ac s2 = some o) ∧
      (∃ o, numbered_main an s1 = some o ∧ numbered_main an s2 = some o) ∧
      (∃ o1 o2, add_main [r_res, r_a, r_b] s1 = some o1 ∧
        add_main [r_res, r_a, r_b] s2 = some o2 ∧ o1.exit = 0 ∧ o2.exit = 0 ∧
        (wrap32 (s1 r_res) = wrap32 (s2 r_res) → o1 = o2)) := by
  refine ⟨?_, ?_, ?_⟩
  · obtain ⟨rv, rfl⟩ := asg_one (permitted_length hc)
    have hv := ((clobber_permitted_iff 42 rv).mp hc).2
    exact ⟨_, clobber_main_value 42 rv s1 hv, clobber_main_value 42 rv s2 hv⟩
  · obtain ⟨r0, r1, r2, rfl⟩ := asg_three (permitted_length hn)
    have h12 := ((numbered_permitted_iff 10 20 r0 r1 r2).mp hn).2
    by_cases e : r0 = r2
    · subst e
      have h10 : r1 ≠ r0 := fun e => absurd (h12 e) (by decide)
      exact ⟨_, numbered_main_shared 10 20 r0 r1 s1 h10, numbered_main_shared 10 20 r0 r1 s2 h10⟩
    · exact ⟨_, numbered_main_distinct 10 20 r0 r1 r2 s1 e h12,
        numbered_main_distinct 10 20 r0 r1 r2 s2 e h12⟩
  · have hd := ((add_permitted_iff _ r_res r_a r_b).mp ha).2
    refine ⟨_, _, add_main_value 5 7 r_res r_a r_b s1 hd.1,
      add_main_value 5 7 r_res r_a r_b s2 hd.1, rfl, rfl, ?_⟩
    intro hw
    simp only [toInt32, hw]

theorem runs_deterministic_amended_witness :
    (permitted clobber_asm (clobber_locals 42) [Reg.ebx] = true ∧
      permitted numbered_asm (numbered_locals 10 20) [Reg.eax, Reg.eax, Reg.edx] = true ∧
      permitted add_asm (add_locals 5 7) [Reg.esi, Reg.eax, Reg.edx] = true) ∧
    clobber_main [Reg.ebx] (fun _ => 3) =
      clobber_main [Reg.ebx] (fun r => if r = Reg.esi then 4294967299 else 9) ∧
    numbered_main [Reg.eax, Reg.eax, Reg.edx] (fun _ => 3) =
      numbered_main [Reg.eax, Reg.eax, Reg.edx]
        (fun r => if r = Reg.esi then 4294967299 else 9) ∧
    add_main [Reg.esi, Reg.eax, Reg.edx] (fun _ => 3) =
      add_main [Reg.esi, Reg.eax, Reg.edx]
        (fun r => if r = Reg.esi then 4294967299 else 9) := by
  have t := runs_deterministic_amended [Reg.ebx] [Reg.eax, Reg.eax, Reg.edx]
    Reg.esi Reg.eax Reg.edx (fun _ => 3) (fun r => if r = Reg.esi then 4294967299 else 9)
    (by decide) (by decide) (by decide)
  obtain ⟨⟨oc, hc1, hc2⟩, ⟨om, hn1, hn2⟩, o1, o2, ha1, ha2, _, _, hw⟩ := t
  refine ⟨⟨by decide, by decide, by decide⟩, ?_, ?_, ?_⟩
  · rw [hc1, hc2]
  · rw [hn1, hn2]
  · rw [ha1, ha2, hw (by decide)]

/-- C5: `add.c` need not print the sum of its literals: with the outputs in
`eax`, `ecx`, `edx` and every register 0 on entry (a permitted execution) it
writes `Result: 0`, not `Result: 12`; no operand of the statement is read, so
`a` and `b` never reach the instruction. -/
theorem add_main_may_differ_from_sum :
    (add_asm.inputs = [] ∧ add_asm.operands.all (fun o => !o.isRead) = true) ∧
      ∃ (asg : List Reg) (s0 : RegFile) (out : Outcome),
        permitted add_asm (add_locals 5 7) asg = true ∧ add_main asg s0 = some out ∧
          out.stdout ≠ printf_d "Result: " "\n" (5 + 7) := by
  refine ⟨by decide, [Reg.eax, Reg.ecx, Reg.edx], fun _ => 0, ⟨"Result: 0\n", 0⟩,
    by decide, ?_, by decide⟩
  rw [add_main, add_main_value 5 7 Reg.eax Reg.ecx Reg.edx _ (by decide)]
  decide

/-- C6: under every permitted assignment of `clobber.c` the registers the
template writes are `eax` and the register of `%[val]`; `eax` is in the clobber
list, the register of `%[val]` is not `eax`, the template runs to completion
from every register content, and every register other than these two holds
afterwards what it held before. -/
theorem clobber_frame (a : Int) (asg : List Reg) (s : RegFile)
    (h : permitted clobber_asm (clobber_locals a) asg = true) :
    ∃ rv, asg = [rv] ∧
      (∀ r ∈ writtenRegs clobber_asm asg, r = Reg.eax ∨ r = rv) ∧
      Reg.eax ∈ clobber_asm.clobbers ∧ rv ≠ Reg.eax ∧
      ∃ t, runTemplate clobber_asm asg clobber_asm.template s = some t ∧
        ∀ r, r ≠ Reg.eax → r ≠ rv → t r = s r := by
  obtain ⟨rv, rfl⟩ := asg_one (permitted_length h)
  have hv := ((clobber_permitted_iff a rv).mp h).2
  refine ⟨rv, rfl, ?_, by decide, hv, _, clobber_template_run rv s, ?_⟩
  · intro r hr
    rw [clobber_written] at hr
    simpa using hr
  · intro r h1 h2
    rw [set_other _ _ _ _ h2, set_other _ _ _ _ h1]

theorem clobber_frame_witness :
    permitted clobber_asm (clobber_locals 42) [Reg.esi] = true ∧
      ∃ rv, [Reg.esi] = [rv] ∧
        (∀ r ∈ writtenRegs clobber_asm [Reg.esi], r = Reg.eax ∨ r = rv) ∧
        Reg.eax ∈ clobber_asm.clobbers ∧ rv ≠ Reg.eax ∧
        ∃ t, runTemplate clobber_asm [Reg.esi] clobber_asm.template (fun _ => 77) = some t ∧
          ∀ r, r ≠ Reg.eax → r ≠ rv → t r = (fun _ => 77 : RegFile) r :=
  ⟨by decide, clobber_frame 42 [Reg.esi] (fun _ => 77) (by decide)⟩

/-- C7: for all `x` and `y`, when the register of `%1` holds `x`, the register
of `%2` holds `y` and `%0` is bound to a register other than that of `%2`,
`movl %1, %0` leaves `x` in `%0` and `addl %2, %0` then leaves there
`(x + y) mod 2^32`, read as a signed 32-bit integer. -/
theorem numbered_sequence_adds (x y : Int) (r0 r1 r2 : Reg) (s : RegFile)
    (h1 : s r1 = ofInt32 x) (h2 : s r2 = ofInt32 y) (h02 : r0 ≠ r2) :
    ∃ s1 s2,
      execInstr numbered_asm [r0, r1, r2] s (Instr.movl (Arg.num 1) (Arg.num 0)) = some s1 ∧
      s1 r0 = ofInt32 x ∧ s1 r2 = ofInt32 y ∧
      execInstr numbered_asm [r0, r1, r2] s1 (Instr.addl (Arg.num 2) (Arg.num 0)) = some s2 ∧
      runTemplate numbered_asm [r0, r1, r2] numbered_asm.template s = some s2 ∧
      toInt32 (s2 r0) = wrapInt (x + y) := by
  refine ⟨s.set r0 (wrap32 (s r1)), _, ?_, ?_, ?_, ?_, numbered_template_run r0 r1 r2 s, ?_⟩
  · simp [execInstr, resolve, numbered_asm, AsmStmt.operands, Loc.read]
  · simp [RegFile.set, h1, wrap32_ofInt32]
  · simp [RegFile.set, h02.symm, h2]
  · simp [execInstr, resolve, numbered_asm, AsmStmt.operands, Loc.read]
  · simp only [RegFile.set, h02.symm, h1, h2, if_true, if_false]
    unfold wrapInt toInt32 wrap32 ofInt32
    split <;> split <;> omega

theorem numbered_sequence_adds_witness :
    ∃ s1 s2,
      execInstr numbered_asm [Reg.eax, Reg.eax, Reg.edx]
        (fun r => if r = Reg.edx then ofInt32 (-1) else ofInt32 2147483647)
        (Instr.movl (Arg.num 1) (Arg.num 0)) = some s1 ∧
      s1 Reg.eax = ofInt32 2147483647 ∧ s1 Reg.edx = ofInt32 (-1) ∧
      execInstr numbered_asm [Reg.eax, Reg.eax, Reg.edx] s1
        (Instr.addl (Arg.num 2) (Arg.num 0)) = some s2 ∧
      runTemplate numbered_asm [Reg.eax, Reg.eax, Reg.edx] numbered_asm.template
        (fun r => if r = Reg.edx then ofInt32 (-1) else ofInt32 2147483647) = some s2 ∧
      toInt32 (s2 Reg.eax) = wrapInt (2147483647 + -1) :=
  numbered_sequence_adds 2147483647 (-1) Reg.eax Reg.eax Reg.edx
    (fun r => if r = Reg.edx then ofInt32 (-1) else ofInt32 2147483647)
    (by decide) (by decide) (by decide)

/-- C8: the output of `numbered.c` is not early-clobber, so for allocatable
registers `r`, `r1`, `r2` with `r1 ≠ r` and `r ≠ r2` the assignment
`%0 = %2 = r, %1 = r1` is permitted; under it the register of `%2` holds `y`
on entry and `x` after `movl %1, %0`, the sequence leaves `2 * x` (mod 2^32) and
`main` prints it, `Sum is: 20` for `x = 10`, `y = 20`; the assignment
`%0 = %1 = r, %2 = r2` is permitted too and still leaves `x + y`. -/
theorem numbered_missing_earlyclobber (x y : Int) (r r1 r2 : Reg) (s0 : RegFile)
    (hr : r ≠ Reg.esp) (hr1 : r1 ≠ Reg.esp) (hr2 : r2 ≠ Reg.esp)
    (h1 : r1 ≠ r) (h2 : r ≠ r2) :
    (permitted numbered_asm (numbered_locals x y) [r, r1, r] = true ∧
      (∃ e s1, asmEntry numbered_asm [r, r1, r] (numbered_locals x y) s0 = some e ∧
        e r = ofInt32 y ∧
        execInstr numbered_asm [r, r1, r] e (Instr.movl (Arg.num 1) (Arg.num 0)) = some s1 ∧
        s1 r = ofInt32 x) ∧
      (∃ s, asmExit numbered_asm [r, r1, r] (numbered_locals x y) s0 = some s ∧
        toInt32 (s r) = wrapInt (2 * x)) ∧
      numbered_main_with x y [r, r1, r] s0 =
        some ⟨printf_d "Sum is: " "\n" (wrapInt (2 * x)), 0⟩ ∧
      (x = 10 → y = 20 → numbered_main [r, r1, r] s0 = some ⟨"Sum is: 20\n", 0⟩)) ∧
    (permitted numbered_asm (numbered_locals x y) [r, r, r2] = true ∧
      (∃ s, asmExit numbered_asm [r, r, r2] (numbered_locals x y) s0 = some s ∧
        toInt32 (s r) = wrapInt (x + y)) ∧
      numbered_main_with x y [r, r, r2] s0 =
        some ⟨printf_d "Sum is: " "\n" (wrapInt (x + y)), 0⟩) := by
  refine ⟨⟨?_, ?_, numbered_exit_shared x y r r1 s0 h1, numbered_main_shared x y r r1 s0 h1, ?_⟩,
    ?_, numbered_exit_distinct x y r r r2 s0 h2 (fun e => absurd e h2),
    numbered_main_distinct x y r r r2 s0 h2 (fun e => absurd e h2)⟩
  · exact (numbered_permitted_iff x y r r1 r).mpr ⟨⟨hr, hr1, hr⟩, fun e => absurd e h1⟩
  · refine ⟨_, (((s0.set r1 (ofInt32 x)).set r (ofInt32 y)).set r
      (wrap32 (((s0.set r1 (ofInt32 x)).set r (ofInt32 y)) r1))),
      numbered_entry x y r r1 r s0, ?_, ?_, ?_⟩
    · simp [RegFile.set]
    · simp [execInstr, resolve, numbered_asm, AsmStmt.operands, Loc.read]
    · simp [RegFile.set, h1, wrap32_ofInt32]
  · intro hx hy
    subst hx hy
    rw [numbered_main, numbered_main_shared 10 20 r r1 s0 h1]
    decide
  · exact (numbered_permitted_iff x y r r r2).mpr ⟨⟨hr, hr, hr2⟩, fun e => absurd e h2⟩

theorem numbered_missing_earlyclobber_witness :
    (Reg.edx ≠ Reg.esp ∧ Reg.eax ≠ Reg.esp ∧ Reg.ebx ≠ Reg.esp ∧ Reg.eax ≠ Reg.edx ∧
      Reg.edx ≠ Reg.ebx) ∧
    permitted numbered_asm (numbered_locals 10 20) [Reg.edx, Reg.eax, Reg.edx] = true ∧
    numbered_main [Reg.edx, Reg.eax, Reg.edx] (fun _ => 0) = some ⟨"Sum is: 20\n", 0⟩ ∧
    permitted numbered_asm (numbered_locals 10 20) [Reg.edx, Reg.edx, Reg.ebx] = true ∧
    numbered_main [Reg.edx, Reg.edx, Reg.ebx] (fun _ => 0) = some ⟨"Sum is: 30\n", 0⟩ := by
  have t := numbered_missing_earlyclobber 10 20 Reg.edx Reg.eax Reg.ebx (fun _ => 0)
    (by decide) (by decide) (by decide) (by decide) (by decide)
  refine ⟨by decide, t.1.1, t.1.2.2.2.2 rfl rfl, t.2.1, ?_⟩
  rw [numbered_main, t.2.2.2]
  decide

/-- C9: under every permitted assignment of `add.c` (three pairwise distinct
registers) the one `addl` writes only the register of `output_a`, never that of
`output_res`; the value printed is what the register of `output_res` held on
entry, read as a signed 32-bit integer, and it is the same for every choice of
the literals `a` and `b`. -/
theorem add_result_is_entry_register (a b : Int) (r_res r_a r_b : Reg) (s0 : RegFile)
    (h : permitted add_asm (add_locals a b) [r_res, r_a, r_b] = true) :
    (r_res ≠ r_a ∧ r_res ≠ r_b ∧ r_a ≠ r_b) ∧
      writtenRegs add_asm [r_res, r_a, r_b] = [r_a] ∧
      r_res ∉ writtenRegs add_asm [r_res, r_a, r_b] ∧
      (∃ s, asmExit add_asm [r_res, r_a, r_b] (add_locals a b) s0 = some s ∧
        s r_res = s0 r_res) ∧
      add_main_with a b [r_res, r_a, r_b] s0 =
        some ⟨printf_d "Result: " "\n" (toInt32 (s0 r_res)), 0⟩ ∧
      add_main_with a b [r_res, r_a, r_b] s0 = add_main [r_res, r_a, r_b] s0 := by
  have hd := ((add_permitted_iff _ r_res r_a r_b).mp h).2
  refine ⟨hd, add_written r_res r_a r_b, ?_, ⟨_, add_exit _ r_res r_a r_b s0, ?_⟩,
    add_main_value a b r_res r_a r_b s0 hd.1, ?_⟩
  · rw [add_written]; simpa using hd.1
  · exact set_other _ _ _ _ hd.1
  · rw [add_main, add_main_value a b r_res r_a r_b s0 hd.1,
      add_main_value 5 7 r_res r_a r_b s0 hd.1]

theorem add_result_is_entry_register_witness :
    permitted add_asm (add_locals 1000 (-3)) [Reg.ebx, Reg.eax, Reg.ecx] = true ∧
      add_main_with 1000 (-3) [Reg.ebx, Reg.eax, Reg.ecx]
        (fun r => if r = Reg.ebx then 4294967295 else 6) = some ⟨"Result: -1\n", 0⟩ ∧
      add_main [Reg.ebx, Reg.eax, Reg.ecx]
        (fun r => if r = Reg.ebx then 4294967295 else 6) = some ⟨"Result: -1\n", 0⟩ := by
  have t := add_result_is_entry_register 1000 (-3) Reg.ebx Reg.eax Reg.ecx
    (fun r => if r = Reg.ebx then 4294967295 else 6) (by decide)
  refine ⟨by decide, ?_, ?_⟩
  · rw [t.2.2.2.2.1]; decide
  · rw [← t.2.2.2.2.2, t.2.2.2.2.1]; decide

/-- C10: for every `a` and every register content in which the register of
`%[val]`, any register other than `eax`, holds `a`, the sequence
`movl $100, %eax; addl %eax, %[val]` runs to completion, leaves
`(a + 100) mod 2^32` read as a signed 32-bit integer in `%[val]` and 100 in
`eax`, and ends in the same registers whatever `eax` held before. -/
theorem clobber_sequence_adds_100 (a : Int) (rv : Reg) (s : RegFile) (e : Nat)
    (h : rv ≠ Reg.eax) (hv : s rv = ofInt32 a) :
    ∃ t, runTemplate clobber_asm [rv] clobber_asm.template s = some t ∧
      toInt32 (t rv) = wrapInt (a + 100) ∧ t Reg.eax = 100 ∧
      runTemplate clobber_asm [rv] clobber_asm.template (s.set Reg.eax e) = some t := by
  refine ⟨_, clobber_template_run rv s, ?_, ?_, ?_⟩
  · simp only [RegFile.set, h, hv, if_true, if_false]
    unfold wrapInt toInt32 wrap32 ofInt32
    split <;> split <;> omega
  · simp [RegFile.set, h.symm]
  · rw [clobber_template_run]
    congr 1
    funext q
    by_cases hq : q = rv
    · subst hq; simp [RegFile.set, h]
    · by_cases hq2 : q = Reg.eax
      · subst hq2; simp [RegFile.set, h.symm]
      · simp [RegFile.set, hq, hq2]

theorem clobber_sequence_adds_100_witness :
    ∃ t, runTemplate clobber_asm [Reg.ecx] clobber_asm.template
        (fun r => if r = Reg.ecx then ofInt32 2147483600 else 5) = some t ∧
      toInt32 (t Reg.ecx) = wrapInt (2147483600 + 100) ∧ t Reg.eax = 100 ∧
      runTemplate clobber_asm [Reg.ecx] clobber_asm.template
        (RegFile.set (fun r => if r = Reg.ecx then ofInt32 2147483600 else 5) Reg.eax 12345) =
          some t :=
  clobber_sequence_adds_100 2147483600 Reg.ecx
    (fun r => if r = Reg.ecx then ofInt32 2147483600 else 5) 12345 (by decide) (by decide)

end InlineAsm
